import Mathlib

/-!
Verification of the mccn-engine specification: a shallow embedding of the
cube-building core (merge engine, temporal grouper, reference-frame builder,
asset filters, point transformer, build pipeline, rasterising defaults)
with proofs of the spec's stated properties.

The repository ships the engine's documentation (README, §Rasterising
Options, §Filtering) while the Python package body is not part of the
source tree checked here, so each component is modelled from the spec's
and README's words, as noted on each definition.
-/

namespace Mccn

/-! ## Merge engine (spec §4.7, §3 Accumulator) -/

/-- Modelled from the spec: the merge strategies of a MergePolicy —
"Strategies: replace, min, max, mean, sum." -/
inductive Strategy where
  | replace
  | min
  | max
  | mean
  | sum
deriving DecidableEq, Repr

/-- Modelled from the spec: the cell-wise reduction applied when both the
accumulator cell and the incoming cell are valid. For `replace` the new
value overwrites; `min`/`max`/`sum` are running reductions; `mean` keeps a
running sum (the count lives in the accumulator). -/
def combine : Strategy → ℚ → ℚ → ℚ
  | .replace, _, x => x
  | .min, v, x => Min.min v x
  | .max, v, x => Max.max v x
  | .mean, v, x => v + x
  | .sum, v, x => v + x

/-- A single accumulator cell: `none` is a no-data cell (validity mask
clear); `some (v, c)` holds the current value (for mean: running sum) and
the running count of valid contributions. -/
abbrev CellAcc := Option (ℚ × ℕ)

/-- Modelled from the spec: one merge-engine step on one cell — "invalid
(no-data) incoming cells are ignored, never treated as zero or as a
sentinel that displaces an existing valid value"; a valid incoming cell
starts the accumulator or is combined by the resolved strategy. -/
def step (s : Strategy) (acc : CellAcc) (contrib : Option ℚ) : CellAcc :=
  match contrib with
  | none => acc
  | some x =>
    match acc with
    | none => some (x, 1)
    | some (v, c) => some (combine s v x, c + 1)

/-- Modelled from the spec: the value the cube assembler reads out of an
accumulator cell — "mean: running sum and running count per cell; final
value is sum/count"; other strategies expose the running value; a cell
with no valid contribution stays no-data. -/
def finalize (s : Strategy) (acc : CellAcc) : Option ℚ :=
  acc.map fun vc => match s with
    | .mean => vc.1 / (vc.2 : ℚ)
    | _ => vc.1

/-- The last valid (non-`none`) entry of a contribution stream for a cell,
later entries taking precedence. -/
def lastValid : List (Option ℚ) → Option ℚ
  | [] => none
  | c :: rest =>
    match lastValid rest with
    | some v => some v
    | none => c

/-- Folding the merge step over a whole contribution stream for one cell,
starting from a fresh (no-data) accumulator. -/
def mergeCell (s : Strategy) (l : List (Option ℚ)) : CellAcc :=
  List.foldl (step s) none l

/-- C1. In the merge engine, a no-data incoming cell never changes the
accumulator at all — it never alters a valid cell's value, never flips a
valid cell to no-data, and never enters min/max/sum/mean arithmetic — and
a no-data accumulator cell hit by a no-data contribution stays no-data,
so it changes only when a valid contribution arrives. -/
theorem nodata_is_pure_placeholder (s : Strategy) (acc : CellAcc) :
    step s acc none = acc ∧ step s none (none : Option ℚ) = none := by
  constructor
  · rfl
  · rfl

/-- Modelled from the spec: one same-key partial-grid contribution for a
single cell, tagged with the contributing asset's identifier and the
time-slice key that define the merge engine's stable ordering ("assets
sorted by identifier, then by time-slice key"). -/
structure Contribution where
  asset : String
  tkey : ℤ
  value : Option ℚ
deriving DecidableEq, Repr

/-- Stable-order comparison on contributions: by asset identifier first,
then by time-slice key. -/
def keyLE (c₁ c₂ : Contribution) : Bool :=
  match compare c₁.asset c₂.asset with
  | .lt => true
  | .gt => false
  | .eq => decide (c₁.tkey ≤ c₂.tkey)

/-- Stable insertion into a list sorted by `keyLE`: an element entering
later is placed after every already-present element that compares
less-or-equal to it. -/
def insertStable (c : Contribution) : List Contribution → List Contribution
  | [] => [c]
  | d :: rest => if keyLE d c then d :: insertStable c rest else c :: d :: rest

/-- Modelled from the spec: the stable ordering in which same-key
contributions are applied — assets sorted by identifier, then by
time-slice key, ties kept in encounter order. -/
def sortContribs (cs : List Contribution) : List Contribution :=
  List.foldl (fun acc c => insertStable c acc) [] cs

theorem combine_comm (s : Strategy) (hs : s ≠ .replace) (x y : ℚ) :
    combine s x y = combine s y x := by
  cases s with
  | replace => exact absurd rfl hs
  | min => simp [combine, min_comm]
  | max => simp [combine, max_comm]
  | mean => simp [combine, add_comm]
  | sum => simp [combine, add_comm]

theorem combine_right_comm (s : Strategy) (hs : s ≠ .replace) (v x y : ℚ) :
    combine s (combine s v x) y = combine s (combine s v y) x := by
  cases s with
  | replace => exact absurd rfl hs
  | min => simp [combine, min_right_comm]
  | max => simp [combine, sup_right_comm]
  | mean => simp [combine, add_right_comm]
  | sum => simp [combine, add_right_comm]

theorem step_right_comm (s : Strategy) (hs : s ≠ .replace) (acc : CellAcc)
    (c₁ c₂ : Option ℚ) :
    step s (step s acc c₁) c₂ = step s (step s acc c₂) c₁ := by
  cases c₁ with
  | none => rfl
  | some x₁ =>
    cases c₂ with
    | none => rfl
    | some x₂ =>
      cases acc with
      | none => simp [step, combine_comm s hs]
      | some vc =>
        obtain ⟨v, k⟩ := vc
        simp [step, combine_right_comm s hs]

theorem mergeCell_replace_value (l : List (Option ℚ)) (a : CellAcc) :
    Option.map Prod.fst (List.foldl (step .replace) a l) =
      match lastValid l with
      | some v => some v
      | none => Option.map Prod.fst a := by
  induction l generalizing a with
  | nil => simp [lastValid]
  | cons c rest ih =>
    rw [List.foldl_cons, ih]
    cases h : lastValid rest with
    | some v => simp [lastValid, h]
    | none =>
      cases c with
      | none => simp [lastValid, h, step]
      | some x =>
        cases a with
        | none => simp [lastValid, h, step]
        | some vc => simp [lastValid, h, step, combine]

/-- C2. Order invariance of the merge: for the commutative strategies
(min, max, sum, mean) the accumulator after folding a list of same-key,
same-cell contributions is the same for every permutation of that list;
for the replace strategy the final cell value equals the last valid
contribution under the stable ordering (assets sorted by identifier,
then by time-slice key). -/
theorem merge_order_invariance (s : Strategy) (l₁ l₂ : List (Option ℚ))
    (cs : List Contribution) (hs : s ≠ .replace) (hp : l₁.Perm l₂) :
    mergeCell s l₁ = mergeCell s l₂ ∧
      Option.map Prod.fst
          (mergeCell .replace ((sortContribs cs).map Contribution.value)) =
        lastValid ((sortContribs cs).map Contribution.value) := by
  constructor
  · exact hp.foldl_eq' (fun x _ y _ z => step_right_comm s hs z x y) none
  · rw [mergeCell, mergeCell_replace_value]
    cases lastValid ((sortContribs cs).map Contribution.value) <;> rfl

/-- Witness for C2 at concrete inputs: min over the swapped lists
[some 1, none] and [none, some 1], and one concrete contribution list. -/
theorem merge_order_invariance_witness :
    mergeCell .min [some 1, none] = mergeCell .min [none, some 1] ∧
      Option.map Prod.fst
          (mergeCell .replace
            ((sortContribs [⟨"a", 0, some 2⟩]).map Contribution.value)) =
        lastValid ((sortContribs [⟨"a", 0, some 2⟩]).map Contribution.value) :=
  merge_order_invariance .min [some 1, none] [none, some 1]
    [⟨"a", 0, some 2⟩] (by decide) (List.Perm.swap none (some 1) [])

/-! ## Temporal grouper (spec §4.4, §3 TimeGroupPolicy) -/

/-- A calendar timestamp broken into its components, as consumed by the
temporal grouper. -/
structure Timestamp where
  year : ℕ
  month : ℕ
  day : ℕ
  hour : ℕ
  minute : ℕ
  second : ℕ
deriving DecidableEq, Repr

/-- Modelled from the spec: the grouping granularity — "one of {year,
month, day, hour, minute, none}". -/
inductive TimeGroupPolicy where
  | year
  | month
  | day
  | hour
  | minute
  | none
deriving DecidableEq, Repr

/-- Modelled from the spec: "bucket(timestamp, granularity) truncates the
timestamp to the start of its enclosing period for the given granularity,
or returns the timestamp unchanged when granularity is none." -/
def bucket (t : Timestamp) : TimeGroupPolicy → Timestamp
  | .year => ⟨t.year, 1, 1, 0, 0, 0⟩
  | .month => ⟨t.year, t.month, 1, 0, 0, 0⟩
  | .day => ⟨t.year, t.month, t.day, 0, 0, 0⟩
  | .hour => ⟨t.year, t.month, t.day, t.hour, 0, 0⟩
  | .minute => ⟨t.year, t.month, t.day, t.hour, t.minute, 0⟩
  | .none => t

/-- Two timestamps lie in the same calendar period of the given
granularity (for granularity none: they are the same timestamp). -/
def samePeriod (t₁ t₂ : Timestamp) : TimeGroupPolicy → Prop
  | .year => t₁.year = t₂.year
  | .month => t₁.year = t₂.year ∧ t₁.month = t₂.month
  | .day => t₁.year = t₂.year ∧ t₁.month = t₂.month ∧ t₁.day = t₂.day
  | .hour => t₁.year = t₂.year ∧ t₁.month = t₂.month ∧ t₁.day = t₂.day ∧
      t₁.hour = t₂.hour
  | .minute => t₁.year = t₂.year ∧ t₁.month = t₂.month ∧ t₁.day = t₂.day ∧
      t₁.hour = t₂.hour ∧ t₁.minute = t₂.minute
  | .none => t₁ = t₂

/-- A timestamp is the canonical start of its enclosing calendar period
for the given granularity: every finer component sits at its start value
(day and month start at 1, clock components at 0). -/
def isPeriodStart (t : Timestamp) : TimeGroupPolicy → Prop
  | .year => t.month = 1 ∧ t.day = 1 ∧ t.hour = 0 ∧ t.minute = 0 ∧ t.second = 0
  | .month => t.day = 1 ∧ t.hour = 0 ∧ t.minute = 0 ∧ t.second = 0
  | .day => t.hour = 0 ∧ t.minute = 0 ∧ t.second = 0
  | .hour => t.minute = 0 ∧ t.second = 0
  | .minute => t.second = 0
  | .none => True

/-- Modelled from the spec: the recognized spellings of the time_groupby
configuration option, "one of {year, month, day, hour, minute, none}". -/
def parseTimeGroup (s : String) : Option TimeGroupPolicy :=
  if s = "year" then some .year
  else if s = "month" then some .month
  else if s = "day" then some .day
  else if s = "hour" then some .hour
  else if s = "minute" then some .minute
  else if s = "none" then some .none
  else Option.none

/-- C3. The temporal grouper is a pure function: repeated application to
equal arguments yields equal buckets; under granularity none the
timestamp is returned unchanged; otherwise the bucket is the start of the
timestamp's enclosing calendar period, and two timestamps map to the same
bucket exactly when they lie in the same period — so timestamps in
adjacent periods map to different buckets. -/
theorem bucket_deterministic_truncation (g : TimeGroupPolicy)
    (t₁ t₂ : Timestamp) :
    bucket t₁ g = bucket t₁ g ∧
      bucket t₁ .none = t₁ ∧
      isPeriodStart (bucket t₁ g) g ∧
      samePeriod (bucket t₁ g) t₁ g ∧
      (bucket t₁ g = bucket t₂ g ↔ samePeriod t₁ t₂ g) := by
  refine ⟨rfl, rfl, ?_, ?_, ?_⟩ <;>
    cases g <;> simp [bucket, isPeriodStart, samePeriod, Timestamp.mk.injEq]

/-- C7. The time_groupby option accepts exactly the six spellings year,
month, day, hour, minute and none; every granularity other than none maps
a timestamp to the canonical start of its enclosing period, and none is
the identity mapping. -/
theorem time_groupby_option (s : String) (t : Timestamp)
    (g : TimeGroupPolicy) (hg : g ≠ .none) :
    ((parseTimeGroup s).isSome ↔
        s = "year" ∨ s = "month" ∨ s = "day" ∨ s = "hour" ∨ s = "minute" ∨
          s = "none") ∧
      bucket t .none = t ∧
      isPeriodStart (bucket t g) g ∧ samePeriod (bucket t g) t g := by
  refine ⟨?_, rfl, ?_, ?_⟩
  · unfold parseTimeGroup
    split_ifs <;> simp_all
  · cases g <;> simp [bucket, isPeriodStart]
  · cases g <;> simp [bucket, samePeriod]

/-- Witness for C7: the spelling "month" parses, and bucketing
2023-05-17 03:04:05 at month granularity gives a period start in the same
month. -/
theorem time_groupby_option_witness :
    ((parseTimeGroup "month").isSome ↔
        "month" = "year" ∨ "month" = "month" ∨ "month" = "day" ∨
          "month" = "hour" ∨ "month" = "minute" ∨ "month" = "none") ∧
      bucket ⟨2023, 5, 17, 3, 4, 5⟩ .none = ⟨2023, 5, 17, 3, 4, 5⟩ ∧
      isPeriodStart (bucket ⟨2023, 5, 17, 3, 4, 5⟩ .month) .month ∧
        samePeriod (bucket ⟨2023, 5, 17, 3, 4, 5⟩ .month) ⟨2023, 5, 17, 3, 4, 5⟩
          .month :=
  time_groupby_option "month" ⟨2023, 5, 17, 3, 4, 5⟩ .month (by decide)

/-! ## Reference-frame builder (spec §4.1, §3 ReferenceFrame) -/

/-- Modelled from the spec: the immutable reference frame — coordinate
system identifier, affine anchor (origin at the bounding box's minimum
corner), pixel sizes, integer shape — carrying its stated invariants:
"pixel size strictly positive in both axes; shape strictly positive". -/
structure Frame where
  crs : ℕ
  originX : ℚ
  originY : ℚ
  resX : ℚ
  resY : ℚ
  rows : ℕ
  cols : ℕ
  resX_pos : 0 < resX
  resY_pos : 0 < resY
  rows_pos : 0 < rows
  cols_pos : 0 < cols

/-- A well-formed bounding box: strictly positive extent on both axes. -/
structure BBox where
  xmin : ℚ
  ymin : ℚ
  xmax : ℚ
  ymax : ℚ
  hx : xmin < xmax
  hy : ymin < ymax

/-- Modelled from the spec and README (§Filtering by geobox): the frame
configuration surface — an optional explicit prebuilt frame, a coordinate
system string, an optional fixed shape (positive pixel counts), an
optional fixed resolution, and the bounding box (supplied or derived as
the union of asset footprints). -/
structure FrameSpec where
  explicit : Option Frame
  crs : String
  shape : Option ({ n : ℕ // 0 < n } × { n : ℕ // 0 < n })
  resolution : Option ℚ
  bbox : BBox

/-- Modelled from the spec (§7): the ConfigurationError taxonomy for an
unresolvable frame spec — "missing shape/resolution, non-positive
resolution, unparseable coordinate system". -/
inductive ConfigError where
  | missingShapeResolution
  | nonPositiveResolution
  | unparseableCRS
deriving DecidableEq, Repr

/-- Reads a non-empty run of decimal digits as a number, failing on any
non-digit character. -/
def digitsToNat : List Char → ℕ → Option ℕ
  | [], acc => some acc
  | c :: rest, acc =>
    if c.isDigit then digitsToNat rest (acc * 10 + (c.toNat - 48))
    else Option.none

/-- Modelled from the spec: parsing the coordinate-system identifier; an
"epsg:<code>" spelling resolves to its numeric code, anything else fails
to parse. -/
def parseCRS (s : String) : Option ℕ :=
  match s.toList with
  | 'e' :: 'p' :: 's' :: 'g' :: ':' :: d :: rest => digitsToNat (d :: rest) 0
  | _ => Option.none

/-- Modelled from the spec (§4.1): "given an explicit frame, return it
unchanged. Otherwise require a coordinate system and at least one of
{fixed shape, fixed resolution}"; the affine mapping is anchored at the
bounding box's minimum corner and the given one of resolution/shape
derives the other; "fails with a configuration error when neither shape
nor resolution is resolvable, when resolution ≤ 0, or when the
coordinate system cannot be parsed." -/
def buildFrame (sp : FrameSpec) : Except ConfigError Frame :=
  match sp.explicit with
  | some f => .ok f
  | Option.none =>
    match parseCRS sp.crs with
    | Option.none => .error .unparseableCRS
    | some c =>
      match sp.resolution with
      | some r =>
        if h : r ≤ 0 then .error .nonPositiveResolution
        else
          .ok { crs := c, originX := sp.bbox.xmin, originY := sp.bbox.ymin,
                resX := r, resY := r,
                rows := (⌈(sp.bbox.ymax - sp.bbox.ymin) / r⌉).toNat,
                cols := (⌈(sp.bbox.xmax - sp.bbox.xmin) / r⌉).toNat,
                resX_pos := not_le.mp h, resY_pos := not_le.mp h,
                rows_pos := by
                  have hq : (0 : ℚ) < (sp.bbox.ymax - sp.bbox.ymin) / r :=
                    div_pos (sub_pos.mpr sp.bbox.hy) (not_le.mp h)
                  have := Int.ceil_pos.mpr hq
                  omega,
                cols_pos := by
                  have hq : (0 : ℚ) < (sp.bbox.xmax - sp.bbox.xmin) / r :=
                    div_pos (sub_pos.mpr sp.bbox.hx) (not_le.mp h)
                  have := Int.ceil_pos.mpr hq
                  omega }
      | Option.none =>
        match sp.shape with
        | some rc =>
          .ok { crs := c, originX := sp.bbox.xmin, originY := sp.bbox.ymin,
                resX := (sp.bbox.xmax - sp.bbox.xmin) / (rc.2.1 : ℚ),
                resY := (sp.bbox.ymax - sp.bbox.ymin) / (rc.1.1 : ℚ),
                rows := rc.1.1, cols := rc.2.1,
                resX_pos := div_pos (sub_pos.mpr sp.bbox.hx)
                  (by exact_mod_cast rc.2.2),
                resY_pos := div_pos (sub_pos.mpr sp.bbox.hy)
                  (by exact_mod_cast rc.1.2),
                rows_pos := rc.1.2, cols_pos := rc.2.2 }
        | Option.none => .error .missingShapeResolution

/-! ## Build pipeline: strict and lenient modes (spec §5, §7) -/

/-- Modelled from the spec (§5, §7): one cube-build pass over the
discovered assets. In strict mode the first failing asset aborts the
whole build with its error; in lenient mode failing assets are skipped
and recorded as per-asset failure records while the build proceeds. -/
def buildCube {α β E : Type} (strict : Bool) (tf : α → Except E β) :
    List α → Except E (List β × List (α × E))
  | [] => .ok ([], [])
  | a :: rest =>
    match tf a with
    | .ok b =>
      match buildCube strict tf rest with
      | .ok (done, fails) => .ok (b :: done, fails)
      | .error e => .error e
    | .error e =>
      if strict then .error e
      else
        match buildCube strict tf rest with
        | .ok (done, fails) => .ok (done, (a, e) :: fails)
        | .error e' => .error e'

/-- The successfully transformed contributions of an asset list, in
order. -/
def successes {α β E : Type} (tf : α → Except E β) (l : List α) : List β :=
  l.filterMap fun a => (tf a).toOption

/-- The per-asset failure records of an asset list, in order. -/
def failures {α β E : Type} (tf : α → Except E β) (l : List α) :
    List (α × E) :=
  l.filterMap fun a =>
    match tf a with
    | .error e => some (a, e)
    | .ok _ => Option.none

/-- Errors surfaced by a whole build: a configuration error from the
frame builder, or an asset-stage error. -/
inductive BuildError (E : Type) where
  | config (e : ConfigError)
  | asset (e : E)
deriving DecidableEq

/-- Modelled from the spec (§7 propagation policy): the full build first
resolves the reference frame — a ConfigurationError aborts immediately,
the frame being foundational — and only then transforms and merges the
assets. -/
def fullBuild {α β E : Type} (strict : Bool) (sp : FrameSpec)
    (tf : Frame → α → Except E β) (assets : List α) :
    Except (BuildError E) (Frame × List β × List (α × E)) :=
  match buildFrame sp with
  | .error e => .error (.config e)
  | .ok f =>
    match buildCube strict (tf f) assets with
    | .error e => .error (.asset e)
    | .ok (done, fails) => .ok (f, done, fails)

theorem buildCube_strict_first_error {α β E : Type} (tf : α → Except E β)
    (pre post : List α) (a : α) (e : E)
    (h1 : ∀ x ∈ pre, ∃ b, tf x = .ok b) (h2 : tf a = .error e) :
    buildCube true tf (pre ++ a :: post) = .error e := by
  induction pre with
  | nil => simp [buildCube, h2]
  | cons x xs ih =>
    obtain ⟨b, hb⟩ := h1 x (List.mem_cons_self x xs)
    have hrec := ih fun y hy => h1 y (List.mem_cons_of_mem x hy)
    simp [buildCube, hb, hrec]

theorem buildCube_strict_ok {α β E : Type} (tf : α → Except E β)
    (l : List α) (done : List β) (fails : List (α × E))
    (h : buildCube true tf l = .ok (done, fails)) :
    fails = [] ∧ ∀ x ∈ l, ∃ b, tf x = .ok b := by
  induction l generalizing done fails with
  | nil =>
    simp [buildCube] at h
    simp [h.2]
  | cons x xs ih =>
    cases htf : tf x with
    | error e => simp [buildCube, htf] at h
    | ok b =>
      cases hrec : buildCube true tf xs with
      | error e => simp [buildCube, htf, hrec] at h
      | ok pair =>
        obtain ⟨d, fl⟩ := pair
        simp [buildCube, htf, hrec] at h
        obtain ⟨hdone, hfails⟩ := h
        subst hfails
        obtain ⟨hfl, hall⟩ := ih d fl hrec
        refine ⟨hfl, ?_⟩
        intro y hy
        rcases List.mem_cons.mp hy with hy | hy
        · exact ⟨b, hy ▸ htf⟩
        · exact hall y hy

theorem buildCube_lenient {α β E : Type} (tf : α → Except E β) (l : List α) :
    buildCube false tf l = .ok (successes tf l, failures tf l) := by
  induction l with
  | nil => simp [buildCube, successes, failures]
  | cons a rest ih =>
    cases htf : tf a with
    | ok b =>
      simp [buildCube, htf, ih, successes, failures, List.filterMap_cons,
        Except.toOption]
    | error e =>
      simp [buildCube, htf, ih, successes, failures, List.filterMap_cons,
        Except.toOption]

/-- C8. A cube build is atomic with respect to failure: in strict mode
the first failing asset aborts the whole build and the caller receives
that single error with no partial cube; a strict-mode success means every
asset succeeded and no failure was recorded; in lenient mode the build
always returns the cube of the surviving assets together with the
collected per-asset failure records for the skipped ones. -/
theorem build_mode_atomicity {α β E : Type} (tf : α → Except E β)
    (pre post assets : List α) (a : α) (e : E)
    (h1 : ∀ x ∈ pre, ∃ b, tf x = .ok b) (h2 : tf a = .error e) :
    buildCube true tf (pre ++ a :: post) = .error e ∧
      (∀ done fails, buildCube true tf assets = .ok (done, fails) →
        fails = [] ∧ ∀ x ∈ assets, ∃ b, tf x = .ok b) ∧
      buildCube false tf assets =
        .ok (successes tf assets, failures tf assets) :=
  ⟨buildCube_strict_first_error tf pre post a e h1 h2,
    fun done fails h => buildCube_strict_ok tf assets done fails h,
    buildCube_lenient tf assets⟩

/-- A concrete asset transform for witnesses: asset 0 fails to load,
every other asset loads as itself. -/
def sampleTransform (n : ℕ) : Except String ℕ :=
  if n = 0 then .error "bad" else .ok n

/-- Witness for C8 on a concrete asset list: asset 0 fails between
assets 1 and 2. -/
theorem build_mode_atomicity_witness :
    buildCube true sampleTransform ([1] ++ 0 :: [2]) = .error "bad" ∧
      (∀ done fails,
          buildCube true sampleTransform [1, 2] = .ok (done, fails) →
          fails = [] ∧ ∀ x ∈ [1, 2], ∃ b, sampleTransform x = .ok b) ∧
      buildCube false sampleTransform [1, 2] =
        .ok (successes sampleTransform [1, 2],
          failures sampleTransform [1, 2]) :=
  build_mode_atomicity sampleTransform [1] [2] [1, 2] 0 "bad"
    (by
      intro x hx
      simp at hx
      subst hx
      exact ⟨1, rfl⟩)
    rfl

/-- C4. The reference-frame builder raises a ConfigurationError exactly
when no explicit frame is given and the coordinate system cannot be
parsed, or neither shape nor resolution is supplied, or the supplied
resolution is ≤ 0; every successfully built frame has strictly positive
resolution on both axes and strictly positive shape; and a frame error
aborts the full build immediately. -/
theorem frame_builder_spec (sp : FrameSpec) :
    ((∃ e, buildFrame sp = .error e) ↔
        sp.explicit = Option.none ∧
          (parseCRS sp.crs = Option.none ∨
            (sp.resolution = Option.none ∧ sp.shape = Option.none) ∨
            ∃ r, sp.resolution = some r ∧ r ≤ 0)) ∧
      (∀ f, buildFrame sp = .ok f →
        0 < f.resX ∧ 0 < f.resY ∧ 0 < f.rows ∧ 0 < f.cols) ∧
      (∀ (α β E : Type) (strict : Bool) (tf : Frame → α → Except E β)
          (assets : List α) (e : ConfigError),
        buildFrame sp = .error e →
        fullBuild strict sp tf assets = .error (.config e)) := by
  refine ⟨?_, ?_, ?_⟩
  · obtain ⟨ex, crs, shape, res, bb⟩ := sp
    cases ex with
    | some f => simp [buildFrame]
    | none =>
      cases hcrs : parseCRS crs with
      | none => simp [buildFrame, hcrs]
      | some c =>
        cases res with
        | some r =>
          by_cases h : r ≤ 0
          · simp [buildFrame, hcrs, h]
          · simp [buildFrame, hcrs, h]
        | none =>
          cases shape with
          | some rc => simp [buildFrame, hcrs]
          | none => simp [buildFrame, hcrs]
  · intro f _
    exact ⟨f.resX_pos, f.resY_pos, f.rows_pos, f.cols_pos⟩
  · intro α β E strict tf assets e h
    simp [fullBuild, h]

/-- A concrete frame spec for witnesses: no explicit frame, a parseable
coordinate system, no shape, and a non-positive resolution. -/
def sampleBadSpec : FrameSpec :=
  { explicit := Option.none, crs := "epsg:4326", shape := Option.none,
    resolution := some (-1), bbox := ⟨0, 0, 10, 10, by norm_num, by norm_num⟩ }

/-- Witness for C4: the non-positive resolution of `sampleBadSpec` aborts
the full build with a configuration error. -/
theorem frame_builder_spec_witness :
    fullBuild true sampleBadSpec
        (fun _ (_ : ℕ) => (Except.ok (0 : ℚ) : Except String ℚ))
        ([] : List ℕ) =
      .error (.config .nonPositiveResolution) :=
  (frame_builder_spec sampleBadSpec).2.2 ℕ ℚ String true _ []
    .nonPositiveResolution (by rfl)

/-! ## Temporal filter (spec §4.3) -/

/-- A requested temporal bound: either timezone-naive, or timezone-aware
with an explicit offset from UTC. -/
inductive TimeInput where
  | naive (v : ℤ)
  | aware (v : ℤ) (offset : ℤ)
deriving DecidableEq, Repr

/-- Modelled from the spec: bound normalization — "if timezone-naive,
treat as the cube's reference timezone (UTC)"; an aware bound is
converted to UTC by removing its offset. -/
def toUTC : TimeInput → ℤ
  | .naive v => v
  | .aware v offset => v - offset

/-- An asset's temporal extent: a single instant or an interval. -/
inductive Extent where
  | instant (t : ℤ)
  | interval (a b : ℤ)
deriving DecidableEq, Repr

/-- A well-formed extent: an interval runs forward. -/
def extentWF : Extent → Prop
  | .instant _ => True
  | .interval a b => a ≤ b

/-- The extent covers the given UTC instant. -/
def extentContains : Extent → ℤ → Prop
  | .instant t, x => x = t
  | .interval a b, x => a ≤ x ∧ x ≤ b

/-- The (inclusive) lower bound test; an absent bound is unbounded. -/
def lowerOk (start : Option TimeInput) (t : ℤ) : Bool :=
  match start with
  | Option.none => true
  | some s => decide (toUTC s ≤ t)

/-- The (inclusive) upper bound test; an absent bound is unbounded. -/
def upperOk (stop : Option TimeInput) (t : ℤ) : Bool :=
  match stop with
  | Option.none => true
  | some s => decide (t ≤ toUTC s)

/-- Modelled from the spec: "An asset is kept iff its own temporal extent
intersects [start, end]"; both bounds inclusive, partial overlap of an
interval extent sufficient. -/
def keepTemporal (start stop : Option TimeInput) : Extent → Bool
  | .instant t => lowerOk start t && upperOk stop t
  | .interval a b => lowerOk start b && upperOk stop a

/-- A well-formed query: when both bounds are present, the normalized
start does not exceed the normalized end. -/
def queryWF (start stop : Option TimeInput) : Prop :=
  match start, stop with
  | some s, some e => toUTC s ≤ toUTC e
  | _, _ => True

/-- C5. The temporal filter keeps an asset exactly when its temporal
extent (instant or interval) meets the closed bound interval: some UTC
instant lies in the extent and within both inclusive bounds; a
timezone-naive bound is read as UTC unchanged, and an absent bound is
unbounded on its side. -/
theorem temporal_filter_spec (start stop : Option TimeInput) (ext : Extent)
    (hw : extentWF ext) (hq : queryWF start stop) :
    (keepTemporal start stop ext = true ↔
        ∃ t : ℤ, extentContains ext t ∧ lowerOk start t = true ∧
          upperOk stop t = true) ∧
      (∀ v : ℤ, toUTC (.naive v) = v) ∧
      (∀ t : ℤ, lowerOk Option.none t = true ∧ upperOk Option.none t = true) := by
  refine ⟨?_, fun _ => rfl, fun _ => ⟨rfl, rfl⟩⟩
  cases ext with
  | instant t =>
    simp [keepTemporal, extentContains]
  | interval a b =>
    simp only [extentWF] at hw
    cases start with
    | none =>
      cases stop with
      | none =>
        simp [keepTemporal, extentContains, lowerOk, upperOk]
        exact ⟨a, le_refl a, hw⟩
      | some e =>
        simp [keepTemporal, extentContains, lowerOk, upperOk]
        constructor
        · intro h
          exact ⟨a, ⟨le_refl a, hw⟩, h⟩
        · rintro ⟨t, ⟨hat, _⟩, hte⟩
          exact le_trans hat hte
    | some s =>
      cases stop with
      | none =>
        simp [keepTemporal, extentContains, lowerOk, upperOk]
        constructor
        · intro h
          exact ⟨max a (toUTC s), ⟨le_max_left _ _, max_le hw h⟩,
            le_max_right _ _⟩
        · rintro ⟨t, ⟨_, htb⟩, hst⟩
          exact le_trans hst htb
      | some e =>
        simp only [queryWF] at hq
        simp [keepTemporal, extentContains, lowerOk, upperOk]
        constructor
        · rintro ⟨h1, h2⟩
          exact ⟨max a (toUTC s), ⟨le_max_left _ _, max_le hw h1⟩,
            le_max_right _ _, max_le h2 hq⟩
        · rintro ⟨t, ⟨hat, htb⟩, hst, hte⟩
          exact ⟨le_trans hst htb, le_trans hat hte⟩

/-- Witness for C5: bounds [0, 10] (the end bound timezone-aware with
zero offset) against the interval extent [-5, 3], which overlaps
partially and is kept. -/
theorem temporal_filter_spec_witness :
    (keepTemporal (some (.naive 0)) (some (.aware 10 0))
          (.interval (-5) 3) = true ↔
        ∃ t : ℤ, extentContains (.interval (-5) 3) t ∧
          lowerOk (some (.naive 0)) t = true ∧
          upperOk (some (.aware 10 0)) t = true) ∧
      (∀ v : ℤ, toUTC (.naive v) = v) ∧
      (∀ t : ℤ, lowerOk Option.none t = true ∧
        upperOk Option.none t = true) :=
  temporal_filter_spec (some (.naive 0)) (some (.aware 10 0))
    (.interval (-5) 3) (by norm_num [extentWF]) (by norm_num [queryWF, toUTC])

/-! ## Band filter (spec §4.5, README §Filtering by bands) -/

/-- The asset kinds of the data model. -/
inductive Kind where
  | raster
  | vector
  | point
deriving DecidableEq, Repr

/-- An asset as seen by the band filter: identifier, kind tag, declared
band names. -/
structure Asset where
  id : String
  kind : Kind
  bands : List String
deriving DecidableEq, Repr

/-- Modelled from the spec: "An asset is kept iff it declares at least
one band in the requested set, or the requested set is empty"; the
use_all_vectors flag additionally keeps any vector asset. -/
def keepBand (requested : List String) (useAllVectors : Bool)
    (a : Asset) : Bool :=
  requested.isEmpty || a.bands.any (fun b => requested.contains b) ||
    (useAllVectors && a.kind == Kind.vector)

/-- The layers an asset contributes to the cube: attribute bands, and
for vector assets a geometry-presence mask layer. -/
inductive Layer where
  | band (name : String)
  | geometryMask
deriving DecidableEq, Repr

/-- The declared bands that survive the band request (an empty request
means all bands). -/
def matchedBands (requested : List String) (a : Asset) : List String :=
  if requested.isEmpty then a.bands
  else a.bands.filter fun b => requested.contains b

/-- Modelled from the spec: the layers a kept asset hands to the merge
engine — its matched attribute bands, plus the geometry-presence mask
for vector assets; unmatched attribute bands are never contributed. -/
def contributions (requested : List String) (a : Asset) : List Layer :=
  match a.kind with
  | .vector => (matchedBands requested a).map Layer.band ++ [Layer.geometryMask]
  | _ => (matchedBands requested a).map Layer.band

/-- C6. The band filter keeps an asset exactly when the requested set is
empty, or the asset declares a requested band, or the use_all_vectors
flag is set and the asset is a vector; a vector asset kept only through
that flag (no band match, non-empty request) contributes exactly its
geometry-presence mask layer and none of its unmatched attribute
bands. -/
theorem band_filter_spec (requested : List String) (uav : Bool)
    (a : Asset) :
    (keepBand requested uav a = true ↔
        requested = [] ∨ (∃ b ∈ a.bands, b ∈ requested) ∨
          (uav = true ∧ a.kind = Kind.vector)) ∧
      (a.kind = Kind.vector → uav = true → requested ≠ [] →
        (∀ b ∈ a.bands, b ∉ requested) →
        keepBand requested uav a = true ∧
          contributions requested a = [Layer.geometryMask]) := by
  constructor
  · simp [keepBand, List.isEmpty_iff, List.any_eq_true, Bool.and_eq_true,
      or_assoc]
  · intro hv huav hne hnm
    constructor
    · simp [keepBand, hv, huav]
    · simp only [contributions, hv]
      simp [matchedBands, List.isEmpty_iff, hne, List.filter_eq_nil_iff]
      exact hnm

/-- Witness for C6: requested band "ndvi"; a vector asset declaring only
"soil_type" is kept via use_all_vectors and contributes only its
geometry mask. -/
theorem band_filter_spec_witness :
    keepBand ["ndvi"] true ⟨"veg", Kind.vector, ["soil_type"]⟩ = true ∧
      contributions ["ndvi"] ⟨"veg", Kind.vector, ["soil_type"]⟩ =
        [Layer.geometryMask] :=
  (band_filter_spec ["ndvi"] true ⟨"veg", Kind.vector, ["soil_type"]⟩).2
    rfl rfl (by decide) (by decide)

/-! ## Point transformer pre-reduction (spec §4.6) -/

/-- Modelled from the spec: co-located point observations within one
asset and time-slice are "pre-reduced using the same reduction family as
the eventual merge strategy for that band" — min/max/sum fold the merge
engine's own cell-wise reduction, mean divides the running sum by the
count, and replace (per the spec's design note) keeps the last
observation in stable input order. -/
def preReduce (s : Strategy) (vals : List ℚ) : Option ℚ :=
  match vals with
  | [] => Option.none
  | v :: rest =>
    some (match s with
      | .mean => (rest.foldl (combine .mean) v) / ((rest.length + 1 : ℕ) : ℚ)
      | .replace => (v :: rest).getLast (List.cons_ne_nil v rest)
      | _ => rest.foldl (combine s) v)

theorem foldl_step_some (s : Strategy) (rest : List ℚ) (v : ℚ) (k : ℕ) :
    List.foldl (step s) (some (v, k)) (rest.map some) =
      some (rest.foldl (combine s) v, k + rest.length) := by
  induction rest generalizing v k with
  | nil => simp
  | cons x xs ih =>
    rw [List.map_cons, List.foldl_cons]
    show List.foldl (step s) (some (combine s v x, k + 1)) (xs.map some) = _
    rw [ih]
    simp only [List.foldl_cons, List.length_cons, Option.some.injEq,
      Prod.mk.injEq]
    exact ⟨trivial, by omega⟩

theorem foldl_replace_last (rest : List ℚ) (v : ℚ) :
    rest.foldl (combine .replace) v =
      (v :: rest).getLast (List.cons_ne_nil v rest) := by
  induction rest generalizing v with
  | nil => simp [List.getLast]
  | cons x xs ih =>
    rw [List.foldl_cons]
    have hxy : combine .replace v x = x := rfl
    rw [hxy, ih x, List.getLast_cons (List.cons_ne_nil x xs)]

/-- C9. For co-located point observations in one asset and time-slice,
the pre-reduced single value handed to the merge engine coincides with
what the merge engine's own strategy would compute over those
observations cell-wise; in particular, with merge strategy mean,
observations 10 and 20 in the same cell pre-reduce to 15. -/
theorem point_prereduce_spec (s : Strategy) (vals : List ℚ)
    (h : vals ≠ []) :
    finalize s (mergeCell s (vals.map some)) = preReduce s vals ∧
      preReduce .mean [10, 20] = some 15 := by
  refine ⟨?_, by norm_num [preReduce, combine]⟩
  cases vals with
  | nil => exact absurd rfl h
  | cons v rest =>
    have hstart : mergeCell s ((v :: rest).map some) =
        some (rest.foldl (combine s) v, 1 + rest.length) := by
      simp only [mergeCell, List.map_cons, List.foldl_cons, step]
      exact foldl_step_some s rest v 1
    rw [hstart]
    cases s with
    | replace =>
      simp [finalize, preReduce, foldl_replace_last]
    | min => simp [finalize, preReduce]
    | max => simp [finalize, preReduce]
    | sum => simp [finalize, preReduce]
    | mean =>
      simp [finalize, preReduce, Nat.add_comm]

/-- Witness for C9: the mean strategy over the concrete observations
10 and 20 — the merge engine and the pre-reduction both produce 15. -/
theorem point_prereduce_spec_witness :
    finalize .mean (mergeCell .mean ([10, 20].map some)) =
        preReduce .mean [10, 20] ∧
      preReduce .mean [10, 20] = some 15 :=
  point_prereduce_spec .mean [10, 20] (by decide)

/-! ## Rasterising defaults (README §Rasterising Options) -/

/-- The output data types recognized by the loader model. -/
inductive Dtype where
  | float64
  | float32
  | int32
  | uint8
deriving DecidableEq, Repr

/-- A per-layer option: a single value applied to all layers, or a
per-band table with a separate fallback for missing keys. -/
inductive Setting (α : Type) where
  | single (value : α)
  | perBand (table : List (String × α))
deriving DecidableEq, Repr

/-- First match in a per-band option table. -/
def lookupBand {α : Type} (table : List (String × α)) (band : String) :
    Option α :=
  match table with
  | [] => Option.none
  | (k, v) :: rest => if k = band then some v else lookupBand rest band

/-- Modelled from the README (§Rasterising Options): the loader's
configuration surface with its documented defaults — nodata and
nodata_fallback default to 0, time_groupby defaults to no grouping,
merge_method defaults to None with fallback "replace", dtype defaults to
None with fallback "float64". -/
structure CubeConfig where
  nodata : Setting ℚ := .single 0
  nodata_fallback : ℚ := 0
  time_groupby : TimeGroupPolicy := .none
  merge_method : Option (Setting Strategy) := Option.none
  merge_method_fallback : Strategy := .replace
  dtype : Option (Setting Dtype) := Option.none
  dtype_fallback : Dtype := .float64

/-- The configuration obtained when the caller sets nothing. -/
def defaultConfig : CubeConfig := {}

/-- Modelled from the README: resolving a band's merge strategy — "If
None is provided, will use the replace strategy"; a per-band table falls
back to merge_method_fallback on a missing key. -/
def resolveStrategy (cfg : CubeConfig) (band : String) : Strategy :=
  match cfg.merge_method with
  | Option.none => .replace
  | some (.single s) => s
  | some (.perBand table) =>
    match lookupBand table band with
    | some s => s
    | Option.none => cfg.merge_method_fallback

/-- Modelled from the README: resolving a band's nodata fill value, with
nodata_fallback used for layers missing from a nodata table. -/
def resolveNodata (cfg : CubeConfig) (band : String) : ℚ :=
  match cfg.nodata with
  | .single v => v
  | .perBand table =>
    match lookupBand table band with
    | some v => v
    | Option.none => cfg.nodata_fallback

/-- Modelled from the README: resolving a band's output data type, with
dtype_fallback used when dtype is unset or the band is missing from a
dtype table. -/
def resolveDtype (cfg : CubeConfig) (band : String) : Dtype :=
  match cfg.dtype with
  | Option.none => cfg.dtype_fallback
  | some (.single d) => d
  | some (.perBand table) =>
    match lookupBand table band with
    | some d => d
    | Option.none => cfg.dtype_fallback

/-- C10. With no options configured, the loader's defaults hold: nodata
and nodata_fallback are 0, merge_method is None and resolves to the
replace strategy, merge_method_fallback is replace, dtype_fallback is
float64, and the default temporal grouping is the identity (no
grouping) — so every unconfigured band is merged by replace and filled
with 0 at type float64. -/
theorem default_config_spec (band : String) (t : Timestamp) :
    defaultConfig.nodata = .single 0 ∧
      defaultConfig.nodata_fallback = 0 ∧
      defaultConfig.merge_method = Option.none ∧
      defaultConfig.merge_method_fallback = .replace ∧
      defaultConfig.dtype = Option.none ∧
      defaultConfig.dtype_fallback = .float64 ∧
      bucket t defaultConfig.time_groupby = t ∧
      resolveStrategy defaultConfig band = .replace ∧
      resolveNodata defaultConfig band = 0 ∧
      resolveDtype defaultConfig band = .float64 :=
  ⟨rfl, rfl, rfl, rfl, rfl, rfl, rfl, rfl, rfl, rfl⟩

end Mccn
